import Mathlib

/-!
Verification development for the RemUp compiler core
(`RemUp_compiler/remup/{lexer,parser,ast_nodes,compiler}.py`).

Strings are modelled as `List Char`; a source text is split into lines on
`'\n'` exactly like Python's `str.split('\n')`.  The character classes of the
Python regexes (`\s`, `\w`, `\d`) are modelled at ASCII scope, which covers
every concrete input used below.
-/

/-- Python `\s` (whitespace) at ASCII scope: space, tab, newline, carriage
return, vertical tab, form feed. -/
def isWs (c : Char) : Bool :=
  c = ' ' || c = '\t' || c = '\n' || c = '\r' || c = Char.ofNat 11 || c = Char.ofNat 12

/-- Python `\w` (word character) at ASCII scope: alphanumeric or underscore. -/
def isWordChar (c : Char) : Bool :=
  c.isAlphanum || c = '_'

/-- Drop leading whitespace (left part of Python `str.strip()`). -/
def stripL (l : List Char) : List Char :=
  l.dropWhile isWs

/-- Drop trailing whitespace (right part of Python `str.strip()`). -/
def stripR (l : List Char) : List Char :=
  (l.reverse.dropWhile isWs).reverse

/-- Python `str.strip()`. -/
def strip (l : List Char) : List Char :=
  stripR (stripL l)

/-- Convert a Lean string literal to the `List Char` model. -/
def s2l (s : String) : List Char :=
  s.data

/-- Python `text.split('\n')`: always returns at least one (possibly empty)
segment; a trailing newline yields a trailing empty segment. -/
def splitNl : List Char → List (List Char)
  | [] => [[]]
  | c :: r =>
    if c = '\n' then [] :: splitNl r
    else
      match splitNl r with
      | [] => [[c]]
      | h :: t => (c :: h) :: t

/-- Python `'\n'.join(lines)`. -/
def joinNl (ls : List (List Char)) : List Char :=
  List.intercalate ['\n'] ls

/-- Python `','.join(parts)`. -/
def joinComma (ls : List (List Char)) : List Char :=
  List.intercalate [','] ls

/-- Python `text.split(',')` (same segment structure as `splitNl`). -/
def splitComma : List Char → List (List Char)
  | [] => [[]]
  | c :: r =>
    if c = ',' then [] :: splitComma r
    else
      match splitComma r with
      | [] => [[c]]
      | h :: t => (c :: h) :: t

/-! ## Lexer token stream (`lexer.py`)

Token kinds as produced by `Lexer.tokenize`; a token is the Python triple
`(type, value, line_number)`. -/

/-- The token-type strings of `lexer.py`. -/
inductive TokKind where
  | archive
  | cardStart
  | cardEnd
  | label
  | region
  | vibeCard
  | inlineExp
  | codeBlockStart
  | codeBlockContent
  | codeBlockEnd
  | orderedItem
  | unorderedItem
  | boldText
  | text
  | emptyLine
deriving DecidableEq, Repr

/-- A lexer token `(type, value, line_number)`. -/
structure Tok where
  kind : TokKind
  val : List Char
  line : Nat
deriving DecidableEq, Repr

/-! ### Structural line matchers (the anchored `PATTERNS` of `Lexer`)

Each matcher is the deterministic characterisation of the corresponding
Python regex applied with `.match` to one newline-free line. -/

/-- `^\s*$` — whitespace-only line. -/
def isEmptyLine (l : List Char) : Bool :=
  l.all isWs

/-- `^--<([^>]+)>--\s*$`; returns the (raw) archive name.  `[^>]+` is forced
to stop at the first `>`, after which `--` and trailing whitespace must
follow. -/
def lexArchive (l : List Char) : Option (List Char) :=
  match l with
  | '-' :: '-' :: '<' :: r =>
    let name := r.takeWhile (fun c => c ≠ '>')
    if name = [] then none
    else
      match r.dropWhile (fun c => c ≠ '>') with
      | '>' :: '-' :: '-' :: t => if t.all isWs then some name else none
      | _ => none
  | _ => none

/-- `^<\+([^/]+)\s*$`; matches iff something non-empty and `/`-free follows
`<+`, and the greedy group then captures the whole remainder. -/
def lexCardStart (l : List Char) : Option (List Char) :=
  match l with
  | '<' :: '+' :: r =>
    if r ≠ [] && r.all (fun c => c ≠ '/') then some r else none
  | _ => none

/-- `^/\+>\s*$`. -/
def lexCardEnd (l : List Char) : Bool :=
  match l with
  | '/' :: '+' :: '>' :: t => t.all isWs
  | _ => false

/-- `^---\s*([^\s].*?)\s*$`; the lazy group together with the trailing `\s*$`
captures the remainder after `---` stripped of surrounding whitespace (the
line holds no newline, so `.` is unrestricted here). -/
def lexRegion (l : List Char) : Option (List Char) :=
  match l with
  | '-' :: '-' :: '-' :: r =>
    let r1 := r.dropWhile isWs
    if r1 = [] then none else some (stripR r1)
  | _ => none

/-- `^```\s*(\w*)\s*$` (used both with a `.match` anchor for block start and,
with an empty group, as the closing-fence test below). -/
def lexCodeStart (l : List Char) : Option (List Char) :=
  match l with
  | '`' :: '`' :: '`' :: r =>
    let r1 := r.dropWhile isWs
    let lang := r1.takeWhile isWordChar
    if (r1.dropWhile isWordChar).all isWs then some lang else none
  | _ => none

/-- `^```\s*$` — the closing fence. -/
def lexCodeEnd (l : List Char) : Bool :=
  match l with
  | '`' :: '`' :: '`' :: t => t.all isWs
  | _ => false

/-- `\(([^:]+):\s*([^)]+)\)` applied with `.match` (anchored only on the
left).  Backtracking analysis: group 1 is everything before the first `:`
(non-empty); after the `:`, the match succeeds iff the first `)` of the rest
sits at index `p ≥ 1`, group 2 being `rest[i..p)` where
`i = min(whitespace-prefix-length, p-1)`. -/
def lexLabel (l : List Char) : Option (List Char × List Char) :=
  match l with
  | '(' :: r =>
    let g1 := r.takeWhile (fun c => c ≠ ':')
    if g1 = [] then none
    else
      match r.dropWhile (fun c => c ≠ ':') with
      | ':' :: s =>
        let pre := s.takeWhile (fun c => c ≠ ')')
        match s.dropWhile (fun c => c ≠ ')') with
        | ')' :: _ =>
          if pre = [] then none
          else some (g1, pre.drop (min (s.takeWhile isWs).length (pre.length - 1)))
        | _ => none
      | _ => none
  | _ => none

/-- `^\d+\.\s+(.*)$`; the greedy `\s+` eats the maximal whitespace run, so
the group is the remainder after it. -/
def lexOrdered (l : List Char) : Option (List Char) :=
  let ds := l.takeWhile Char.isDigit
  if ds = [] then none
  else
    match l.drop ds.length with
    | '.' :: r =>
      if (r.takeWhile isWs) = [] then none else some (r.dropWhile isWs)
    | _ => none

/-- `^-\s+(.*)$`. -/
def lexUnordered (l : List Char) : Option (List Char) :=
  match l with
  | '-' :: r =>
    if (r.takeWhile isWs) = [] then none else some (r.dropWhile isWs)
  | _ => none

/-! ### Inline scanner searches (`re.search` of the inline patterns)

Each `find*` function returns the leftmost match of the pattern inside the
remaining suffix, decomposed as the text before the match plus the groups
plus the text after the match. -/

/-- A character admissible inside the vibe-card content group `[^`\n]+`. -/
def vibeContentChar (c : Char) : Bool :=
  c ≠ '`' && c ≠ '\n'

/-- Match `` `([^`\n]+)`\[([^\]]*)\] `` anchored at the head of `l`:
returns `(content, note, rest-after-match)`. -/
def vibeAt (l : List Char) : Option (List Char × List Char × List Char) :=
  match l with
  | '`' :: r =>
    let c := r.takeWhile vibeContentChar
    if c = [] then none
    else
      match r.dropWhile vibeContentChar with
      | '`' :: '[' :: r3 =>
        let no := r3.takeWhile (fun ch => ch ≠ ']')
        match r3.dropWhile (fun ch => ch ≠ ']') with
        | ']' :: rest => some (c, no, rest)
        | _ => none
      | _ => none
  | _ => none

/-- `re.search` of the vibe-card pattern: leftmost match, returning
`(prefix-before-match, content, note, rest-after-match)`. -/
def findVibe : List Char → Option (List Char × List Char × List Char × List Char)
  | [] => none
  | c :: cs =>
    match vibeAt (c :: cs) with
    | some (co, no, rest) => some ([], co, no, rest)
    | none =>
      match findVibe cs with
      | some (p, co, no, rest) => some (c :: p, co, no, rest)
      | none => none

/-- Match `>>\s*([^\n]+?)\s*$` anchored at the head: it succeeds iff at least
one character follows the `>>`; the returned value is that raw suffix (the
regex always consumes up to the end of the line). -/
def expAt : List Char → Option (List Char)
  | '>' :: '>' :: u => if u = [] then none else some u
  | _ => none

/-- `re.search` of the inline-explanation pattern: leftmost `>>` with a
non-empty suffix; returns `(prefix-before-match, suffix-after-the-marker)`. -/
def findExp : List Char → Option (List Char × List Char)
  | [] => none
  | c :: cs =>
    match expAt (c :: cs) with
    | some u => some ([], u)
    | none =>
      match findExp cs with
      | some (p, u) => some (c :: p, u)
      | none => none

/-- Group 1 of the inline-explanation match on the raw suffix `u`: the suffix
stripped of surrounding whitespace — except that when `u` is all whitespace
the lazy group backtracks onto its last whitespace character. -/
def expGroup (u : List Char) : List Char :=
  if u.all isWs then [u.getLastD ' '] else strip u

/-- Find the first `**` in `l`, splitting `l` as `pre ++ '*' :: '*' :: rest`. -/
def starSplit : List Char → Option (List Char × List Char)
  | '*' :: '*' :: r => some ([], r)
  | c :: cs =>
    match starSplit cs with
    | some (p, r) => some (c :: p, r)
    | none => none
  | [] => none

/-- Match `\*\*(.*?)\*\*` anchored at the head: the lazy group ends at the
first following `**`.  Returns `(content, rest-after-match)`. -/
def boldAt : List Char → Option (List Char × List Char)
  | '*' :: '*' :: r => starSplit r
  | _ => none

/-- `re.search` of the bold pattern: leftmost `**…**`; returns
`(prefix-before-match, content, rest-after-match)`. -/
def findBold : List Char → Option (List Char × List Char × List Char)
  | [] => none
  | c :: cs =>
    match boldAt (c :: cs) with
    | some (co, rest) => some ([], co, rest)
    | none =>
      match findBold cs with
      | some (p, co, rest) => some (c :: p, co, rest)
      | none => none

/-- The `TEXT` token emitted for the (stripped) text before a match, omitted
when empty (`if before_text: …`). -/
def preTok (n : Nat) (pre : List Char) : List Tok :=
  if strip pre = [] then [] else [⟨TokKind.text, strip pre, n⟩]

/-- The `while remaining:` loop of `Lexer._process_line_content`, with an
explicit fuel so the loop body is mirrored literally; `none` marks fuel
exhaustion.  Each iteration searches, in order, for a vibe card, an inline
explanation, then bold text; otherwise the remainder becomes one final
`TEXT` token.  The invariant `remaining = remaining.strip()` of the Python
loop is maintained by stripping after each consumed match. -/
def scanLoop (n : Nat) : Nat → List Char → Option (List Tok)
  | _, [] => some []
  | 0, _ :: _ => none
  | fuel + 1, c :: cs =>
    match findVibe (c :: cs) with
    | some (pre, co, no, rest) =>
      (scanLoop n fuel (strip rest)).map (fun ts =>
        preTok n pre ++ ⟨TokKind.vibeCard, co ++ '[' :: (no ++ [']']), n⟩ :: ts)
    | none =>
      match findExp (c :: cs) with
      | some (pre, u) =>
        (scanLoop n fuel []).map (fun ts =>
          preTok n pre ++ ⟨TokKind.inlineExp, expGroup u, n⟩ :: ts)
      | none =>
        match findBold (c :: cs) with
        | some (pre, co, rest) =>
          (scanLoop n fuel (strip rest)).map (fun ts =>
            preTok n pre ++ ⟨TokKind.boldText, co, n⟩ :: ts)
        | none => some [⟨TokKind.text, c :: cs, n⟩]

/-- `Lexer._process_line_content`: strip the content, then run the scanning
loop (the fuel `length + 1` is proved sufficient below). -/
def scanTokens (n : Nat) (content : List Char) : List Tok :=
  (scanLoop n ((strip content).length + 1) (strip content)).getD []

/-- The `LABEL` token value `f"{symbol}:{','.join(content)}"` where the
symbol is stripped and the content items are the comma-split, stripped
pieces of group 2. -/
def labelVal (g1 g2 : List Char) : List Char :=
  strip g1 ++ ':' :: joinComma ((splitComma g2).map strip)

/-- `Lexer._process_inline_elements`: label line, then ordered/unordered
list item (whose remainder is scanned inline), then plain inline scanning. -/
def inlineElems (n : Nat) (l : List Char) : List Tok :=
  match lexLabel l with
  | some (g1, g2) => [⟨TokKind.label, labelVal g1 g2, n⟩]
  | none =>
    match lexOrdered l with
    | some rest => ⟨TokKind.orderedItem, [], n⟩ :: scanTokens n rest
    | none =>
      match lexUnordered l with
      | some rest => ⟨TokKind.unorderedItem, [], n⟩ :: scanTokens n rest
      | none => scanTokens n l

/-- `Lexer._process_line` outside code-block state: the emitted tokens plus
whether the line opens a code block. -/
def lexLine (n : Nat) (l : List Char) : List Tok × Bool :=
  if isEmptyLine l then ([⟨TokKind.emptyLine, [], n⟩], false)
  else
    match lexCodeStart l with
    | some lang => ([⟨TokKind.codeBlockStart, lang, n⟩], true)
    | none =>
      match lexArchive l with
      | some name => ([⟨TokKind.archive, name, n⟩], false)
      | none =>
        match lexCardStart l with
        | some th => ([⟨TokKind.cardStart, th, n⟩], false)
        | none =>
          if lexCardEnd l then ([⟨TokKind.cardEnd, [], n⟩], false)
          else
            match lexRegion l with
            | some name => ([⟨TokKind.region, name, n⟩], false)
            | none => (inlineElems n l, false)

/-- The main loop of `Lexer.tokenize` over the split lines: `inCode` is the
code-block flag, `cc` the accumulated block body, `n` the current (1-based)
line number.  On the closing fence the accumulated body is emitted as one
`CODE_BLOCK_CONTENT` token back-dated to the line after the opening fence
(`current_line_num - len(content)`); at end of input an unterminated block's
body is NOT flushed (the Python loop simply returns `self.tokens`). -/
def lexLoop (inCode : Bool) (cc : List (List Char)) (n : Nat) :
    List (List Char) → List Tok
  | [] => []
  | l :: ls =>
    if inCode then
      if lexCodeEnd l then
        (if cc = [] then [] else [⟨TokKind.codeBlockContent, joinNl cc, n - cc.length⟩])
          ++ ⟨TokKind.codeBlockEnd, [], n⟩ :: lexLoop false [] (n + 1) ls
      else lexLoop true (cc ++ [l]) (n + 1) ls
    else
      let r := lexLine n l
      r.1 ++ lexLoop r.2 [] (n + 1) ls

/-- `Lexer.tokenize`: split on newlines, number lines from 1, fold the line
processor. -/
def tokenize (src : List Char) : List Tok :=
  lexLoop false [] 1 (splitNl src)

/-- Number of tokens of a given kind in a stream. -/
def countKind (k : TokKind) (ts : List Tok) : Nat :=
  (ts.filter (fun t => t.kind = k)).length

/-! ## AST (`ast_nodes.py`) and parser (`parser.py`)

The dataclasses of `ast_nodes.py`, with the fields the modelled code reads
or writes (the remaining fields — `inline_explanations`, `lists`,
`code_blocks`, `source_lines` — are never touched by the parser or the vibe
processor).  The field `annotation` of `VibeCard` is modelled as `note`. -/

/-- `ast_nodes.VibeCard`: `(id, content, annotation, source_card)`.  Note the
required leading `id : int` field; no construction site in `parser.py`
supplies it (they all pass a `line_number=` keyword instead, which is not a
field). -/
structure VibeCard where
  id : Int
  content : List Char
  note : List Char
  source_card : List Char
deriving DecidableEq, Repr

/-- `ast_nodes.Label`: `(symbol, content, label_type)`. -/
structure Label where
  symbol : List Char
  content : List (List Char)
  label_type : List Char
deriving DecidableEq, Repr

/-- `ast_nodes.Region` (the fields the modelled code touches). -/
structure Region where
  name : List Char
  content : List Char
  lines : List (List Char)
  vibe_cards : List VibeCard
deriving DecidableEq, Repr

/-- `ast_nodes.MainCard` (the fields the modelled code touches; the
dataclass has NO `metadata` field). -/
structure MainCard where
  theme : List Char
  labels : List Label
  regions : List Region
  vibe_cards : List VibeCard
deriving DecidableEq, Repr

/-- `ast_nodes.Archive`. -/
structure Archive where
  name : List Char
  cards : List MainCard
  description : List Char
deriving DecidableEq, Repr

/-- `ast_nodes.VibeArchive` (the fields the modelled code touches). -/
structure VibeArchive where
  name : List Char
  cards : List MainCard
deriving DecidableEq, Repr

/-- `ast_nodes.Document`: note the required leading `title` field —
`RemUpParser.parse` constructs `Document(archives=…)` without it. -/
structure Document where
  title : List Char
  archives : List Archive
  vibe_archive : Option VibeArchive
deriving DecidableEq, Repr

/-- A Python exception escaping the modelled code.  `typeErr` stands for the
`TypeError` raised when a constructor is called with a keyword that is not a
field or with a required positional field missing. -/
inductive PyErr where
  | typeErr
deriving DecidableEq, Repr

/-! ### `RemUpParser` (`parser.py`)

`parse` strips each line (`line = lines[i].strip()`, parser.py line 80) and
dispatches on `PATTERNS`, an insertion-ordered dict tried in order:
archive, card_start, card_end, label, region, vibe_card,
inline_explanation, comment, code_block_start, code_block_end, empty_line.
`_process_line` looks up a method named `"_process_" + pattern_name`; only
`_process_card_start`, `_process_card_end`, `_process_label` and
`_process_code_block_start` exist (the archive and region handlers are named
`_process_archive_start` / `_process_region_start` and are therefore never
found), so an archive line, a region line, a vibe/inline/comment/empty match
all break out to `_process_default`.  `_process_default` only appends to
`state.current_region` — which, since `_process_region_start` is
unreachable, is always `None` — and otherwise drops the line.  Consequently
the only state that evolves across lines is the code-block flag, and the
only raising step is `_process_card_start`. -/

/-- Parser pattern `^--<([^>]+)>--\s*$` as a matched-or-not test. -/
def parMatchArchive (t : List Char) : Bool :=
  (lexArchive t).isSome

/-- Parser pattern `^<\+([^/]+)\s*$` as a matched-or-not test. -/
def parMatchCardStart (t : List Char) : Bool :=
  (lexCardStart t).isSome

/-- Parser pattern `^\(([^:]+):\s*([^)]+)\)\s*$`: the lexer's unanchored
label match plus a whitespace-only tail after the closing `)`.  (The parser
never acts on label payloads — there is never a current card — so only the
matched-or-not outcome is modelled.) -/
def parMatchLabel (t : List Char) : Bool :=
  match t with
  | '(' :: r =>
    let g1 := r.takeWhile (fun c => c ≠ ':')
    if g1 = [] then false
    else
      match r.dropWhile (fun c => c ≠ ':') with
      | ':' :: s =>
        let pre := s.takeWhile (fun c => c ≠ ')')
        match s.dropWhile (fun c => c ≠ ')') with
        | ')' :: tail =>
          if pre = [] then false
          else
            -- `\s*` then `([^)]+)` then `)` then `\s*$`: with backtracking the
            -- overall match requires everything after the first `)` to be
            -- whitespace (any later `)` would be non-whitespace).
            tail.all isWs
        | _ => false
      | _ => false
  | _ => false

/-- Parser pattern `^---\s*(\w+)\s*$` as a matched-or-not test. -/
def parMatchRegion (t : List Char) : Bool :=
  match t with
  | '-' :: '-' :: '-' :: r =>
    let r1 := r.dropWhile isWs
    let w := r1.takeWhile isWordChar
    w ≠ [] && (r1.dropWhile isWordChar).all isWs
  | _ => false

/-- Parser vibe-card pattern `` `([^`]+)`\[([^\]]+)\] `` matched at the head
of `t` (content may span anything but a backtick; the note group is
non-empty here, unlike the lexer's). -/
def parVibeAt (t : List Char) : Bool :=
  match t with
  | '`' :: r =>
    let c := r.takeWhile (fun ch => ch ≠ '`')
    if c = [] then false
    else
      match r.dropWhile (fun ch => ch ≠ '`') with
      | '`' :: '[' :: r3 =>
        let no := r3.takeWhile (fun ch => ch ≠ ']')
        if no = [] then false
        else
          match r3.dropWhile (fun ch => ch ≠ ']') with
          | ']' :: _ => true
          | _ => false
      | _ => false
  | _ => false

/-- `re.search` of the parser vibe-card pattern as a found-or-not test. -/
def parHasVibe : List Char → Bool
  | [] => false
  | c :: cs => parVibeAt (c :: cs) || parHasVibe cs

/-- Parser pattern `>>\s*([^\n<]+)` (unanchored tail) matched at the head:
after `>>`, backtracking lets any non-newline whitespace serve as the first
`[^\n<]` character, so the match succeeds iff the whitespace run after `>>`
holds a non-newline character or the first non-whitespace character exists
and is not `<`. -/
def parMatchInlineExp (t : List Char) : Bool :=
  match t with
  | '>' :: '>' :: u =>
    (u.takeWhile isWs).any (fun c => c ≠ '\n') ||
      ((u.dropWhile isWs) ≠ [] && (u.dropWhile isWs).headD ' ' ≠ '<')
  | _ => false

/-- Parser pattern `^\s*#` (comment). -/
def parMatchComment (t : List Char) : Bool :=
  (t.dropWhile isWs).headD ' ' = '#'

/-- Parser state across lines.  Since `_process_region_start` and
`_process_archive_start` are never dispatched and `_process_card_start`
raises before assigning `state.current_card`, the only live component is the
code-block flag (`state.in_code_block`). -/
structure ParseSt where
  inCode : Bool
deriving DecidableEq, Repr

/-- `RemUpParser._process_line` on one raw source line. -/
def parseLine (st : ParseSt) (l : List Char) : Except PyErr ParseSt :=
  -- parse() strips the line before dispatch (parser.py line 80).
  let t := strip l
  if st.inCode then
    -- _process_code_block_line: a closing fence ends the block
    -- (_process_code_block_end touches current_region, which is None,
    -- so it only resets the flag); any other line is accumulated.
    if lexCodeEnd t then Except.ok { st with inCode := false } else Except.ok st
  else if parMatchArchive t then
    -- pattern 'archive': no method `_process_archive` exists (the handler is
    -- `_process_archive_start`) → falls through to _process_default, which
    -- drops the line (current_region is None).
    Except.ok st
  else if parMatchCardStart t then
    -- _process_card_start: a default archive is created if needed, then
    -- MainCard(theme=…, labels=[], regions=[], vibe_cards=[], metadata=…)
    -- raises TypeError — ast_nodes.MainCard has no `metadata` field.
    Except.error PyErr.typeErr
  else if lexCardEnd t then
    -- _process_card_end: current_card is always None, nothing happens.
    Except.ok st
  else if parMatchLabel t then
    -- _process_label: no current card → warning, label dropped.
    Except.ok st
  else if parMatchRegion t then
    -- pattern 'region': no method `_process_region` exists (the handler is
    -- `_process_region_start`) → _process_default drops the line.
    Except.ok st
  else if parVibeAt t then
    -- pattern 'vibe_card': no handler → _process_default.
    Except.ok st
  else if parMatchInlineExp t then
    -- pattern 'inline_explanation': no handler → _process_default.
    Except.ok st
  else if parMatchComment t then
    -- pattern 'comment': no handler → _process_default skips comments.
    Except.ok st
  else
    match lexCodeStart t with
    | some _ =>
      -- _process_code_block_start: enter code-block state.
      Except.ok { st with inCode := true }
    | none =>
      -- pattern 'code_block_end' is shadowed by 'code_block_start';
      -- 'empty_line' and anything unmatched go to _process_default, which
      -- appends to the (never existing) current region or drops the line.
      Except.ok st

/-- The line loop of `RemUpParser.parse`. -/
def parseLines (st : ParseSt) : List (List Char) → Except PyErr ParseSt
  | [] => Except.ok st
  | l :: ls =>
    match parseLine st l with
    | Except.error e => Except.error e
    | Except.ok st' => parseLines st' ls

/-- `RemUpParser.parse`: split the source, run the line loop, then build the
final document.  The final `Document(archives=self.archives)` omits the
required positional field `title` of `ast_nodes.Document` and raises
`TypeError`, so `parse` can never return a `Document`. -/
def remupParse (src : List Char) : Except PyErr Document :=
  match parseLines ⟨false⟩ (splitNl src) with
  | Except.error e => Except.error e
  | Except.ok _ => Except.error PyErr.typeErr

/-! ### `VibeCardProcessor` (`parser.py` lines 492–690) -/

/-- `VibeCardProcessor._extract_vibe_cards_from_text`: at the first match of
the vibe pattern the code executes
`VibeCard(content=…, annotation=…, source_card=…, line_number=…)`, which
raises `TypeError` — `ast_nodes.VibeCard` has no `line_number` field, and
its required `id` field is not supplied.  With no match the result is the
empty list. -/
def extractVibesFromText (t : List Char) : Except PyErr (List VibeCard) :=
  if parHasVibe t then Except.error PyErr.typeErr else Except.ok []

/-- The per-line extraction loop of `_extract_vibe_cards_from_region`. -/
def extractVibesFromLines : List (List Char) → Except PyErr (List VibeCard)
  | [] => Except.ok []
  | l :: ls =>
    match extractVibesFromText l with
    | Except.error e => Except.error e
    | Except.ok vs =>
      match extractVibesFromLines ls with
      | Except.error e => Except.error e
      | Except.ok vs' => Except.ok (vs ++ vs')

/-- `_extract_vibe_cards_from_region`: extract from the region's content,
then from each line; the extracted list is also written back into
`region.vibe_cards`. -/
def processRegion (r : Region) : Except PyErr (Region × List VibeCard) :=
  match extractVibesFromText r.content with
  | Except.error e => Except.error e
  | Except.ok vs1 =>
    match extractVibesFromLines r.lines with
    | Except.error e => Except.error e
    | Except.ok vs2 => Except.ok ({ r with vibe_cards := vs1 ++ vs2 }, vs1 ++ vs2)

/-- The region loop of `_extract_vibe_cards_from_card`. -/
def processRegions : List Region → Except PyErr (List Region × List VibeCard)
  | [] => Except.ok ([], [])
  | r :: rs =>
    match processRegion r with
    | Except.error e => Except.error e
    | Except.ok (r', vs) =>
      match processRegions rs with
      | Except.error e => Except.error e
      | Except.ok (rs', vss) => Except.ok (r' :: rs', vs ++ vss)

/-- One card of `VibeCardProcessor.process`: extract the card's vibe cards
(writing them back into the card and its regions).  The per-vibe main-card
generation loop that follows operates on the extracted list, which is
necessarily empty whenever extraction returned at all, so it contributes
nothing. -/
def processCard (c : MainCard) : Except PyErr MainCard :=
  match processRegions c.regions with
  | Except.error e => Except.error e
  | Except.ok (rs', vs) => Except.ok { c with regions := rs', vibe_cards := vs }

/-- The card loop of `VibeCardProcessor.process` over one archive. -/
def processCards : List MainCard → Except PyErr (List MainCard)
  | [] => Except.ok []
  | c :: cs =>
    match processCard c with
    | Except.error e => Except.error e
    | Except.ok c' =>
      match processCards cs with
      | Except.error e => Except.error e
      | Except.ok cs' => Except.ok (c' :: cs')

/-- The archive loop of `VibeCardProcessor.process`. -/
def processArchives : List Archive → Except PyErr (List Archive)
  | [] => Except.ok []
  | a :: as_ =>
    match processCards a.cards with
    | Except.error e => Except.error e
    | Except.ok cs' =>
      match processArchives as_ with
      | Except.error e => Except.error e
      | Except.ok as' => Except.ok ({ a with cards := cs' } :: as')

/-- Python `str.lower()` at ASCII scope. -/
def lowerL (l : List Char) : List Char :=
  l.map Char.toLower

/-- Order-preserving set insertion (`set.add` with first-seen order; CPython
set iteration order is unspecified — the model fixes discovery order, and
the concrete inputs below use at most one theme so the choice is
inconsequential). -/
def insertTheme (acc : List (List Char)) (x : List Char) : List (List Char) :=
  if acc.contains x then acc else acc ++ [x]

/-- The `vibe_themes` set of `_add_vibe_links`: the lowered themes of the
document's vibe-archive cards. -/
def vibeThemes (d : Document) : List (List Char) :=
  match d.vibe_archive with
  | none => []
  | some va => (va.cards.map (fun c => lowerL c.theme)).foldl insertTheme []

/-- Python's substring test `needle in hay`. -/
def containsSub (hay needle : List Char) : Bool :=
  needle.isPrefixOf hay ||
    match hay with
    | [] => false
    | _ :: t => containsSub t needle

/-- The inner theme loop of `_add_vibe_links` for one region: the first
known theme contained in the lowered region content (the Python `break`
stops after the first hit). -/
def firstThemeIn (ths : List (List Char)) (content : List Char) : Option (List Char) :=
  ths.find? (fun th => containsSub (lowerL content) (lowerL th))

/-- The reference labels `_add_vibe_links` appends to one card: one
`→`/`#theme` label per region whose content mentions a known theme. -/
def refsFor (ths : List (List Char)) (rs : List Region) : List Label :=
  rs.filterMap (fun r =>
    (firstThemeIn ths r.content).map (fun th =>
      ⟨s2l "→", ['#' :: th], s2l "vibe_reference"⟩))

/-- `_add_vibe_links` on one card: append the reference labels (no
deduplication against the existing label list). -/
def linkCard (ths : List (List Char)) (c : MainCard) : MainCard :=
  { c with labels := c.labels ++ refsFor ths c.regions }

/-- `VibeCardProcessor._add_vibe_links`: walk every archive's cards and
append reference labels for themes of the document's vibe archive. -/
def addVibeLinks (d : Document) : Document :=
  { d with archives := d.archives.map (fun a =>
      { a with cards := a.cards.map (linkCard (vibeThemes d)) }) }

/-- `VibeCardProcessor.process`: with no archives the document is returned
unchanged; otherwise the extraction pass runs (raising `TypeError` at the
first vibe-card match anywhere), the generated main-card list is necessarily
empty so `document.vibe_archive` is left as it was, and `_add_vibe_links`
runs on the result. -/
def vibeProcess (d : Document) : Except PyErr Document :=
  if d.archives.isEmpty then Except.ok d
  else
    match processArchives d.archives with
    | Except.error e => Except.error e
    | Except.ok archives' =>
      Except.ok (addVibeLinks { d with archives := archives' })

/-- Whether a region's content or any of its lines contains a parser
vibe-card match. -/
def regionHasVibe (r : Region) : Bool :=
  parHasVibe r.content || r.lines.any parHasVibe

/-- Whether any region of any card of any archive has a vibe-card match. -/
def docHasVibe (d : Document) : Bool :=
  d.archives.any (fun a => a.cards.any (fun c => c.regions.any regionHasVibe))

/-- The successful-extraction result: every `vibe_cards` list cleared (the
processor assigns the freshly extracted — necessarily empty — lists). -/
def clearVibes (d : Document) : Document :=
  { d with archives := d.archives.map (fun a =>
      { a with cards := a.cards.map (fun c =>
          { c with vibe_cards := [],
                   regions := c.regions.map (fun r => { r with vibe_cards := [] }) }) }) }

instance {ε α : Type} [DecidableEq ε] [DecidableEq α] : DecidableEq (Except ε α) :=
  fun a b =>
    match a, b with
    | Except.ok x, Except.ok y => decidable_of_iff (x = y) (by simp)
    | Except.error e, Except.error f => decidable_of_iff (e = f) (by simp)
    | Except.ok _, Except.error _ => isFalse (by simp)
    | Except.error _, Except.ok _ => isFalse (by simp)

/-! ### The dormant region-accumulation code of `parser.py`

`_process_default` (lines 453–489) and `_process_code_block_end` (lines
320–347) would maintain `Region.content` and `Region.lines` were a region
ever current; they are modelled here to compare their update against the
`content == '\n'.join(lines)` invariant. -/

/-- The region update of `_process_default` for a plain text line. -/
def regionAppendLine (r : Region) (l : List Char) : Region :=
  { r with
    content := if r.content = [] then l else r.content ++ '\n' :: l,
    lines := r.lines ++ [l] }

/-! ### Concrete example values used by the claim theorems -/

/-- A region whose content (and single line) holds one annotation span. -/
def exRegionAnn : Region :=
  ⟨s2l "Body", s2l "see `x`[y]", [s2l "see `x`[y]"], []⟩

/-- A document with one card owning one annotated region. -/
def exDoc4 : Document :=
  ⟨s2l "doc4", [⟨s2l "A", [⟨s2l "T", [], [exRegionAnn], []⟩], []⟩], none⟩

/-- A document with one origin card "Greeting" whose region holds exactly one
annotation span. -/
def exDoc5 : Document :=
  ⟨s2l "doc5",
   [⟨s2l "A",
     [⟨s2l "Greeting", [],
       [⟨s2l "Body", s2l "Hello `world`[a greeting]",
         [s2l "Hello `world`[a greeting]"], []⟩], []⟩], []⟩],
   none⟩

/-- A document with a vibe archive holding one generated card themed `x` and
one main card whose region content mentions `x`. -/
def exDoc6 : Document :=
  ⟨s2l "doc6",
   [⟨s2l "A",
     [⟨s2l "C", [], [⟨s2l "B", s2l "has x inside", [s2l "has x inside"], []⟩], []⟩],
     []⟩],
   some ⟨s2l "V", [⟨s2l "x", [], [], []⟩]⟩⟩

/-- The forward-reference (`→`) label targets attached to a card. -/
def fwdTargets (c : MainCard) : List (List Char) :=
  (c.labels.filter (fun lb => lb.symbol = s2l "→")).map (fun lb => lb.content.headD [])

/-- Claim C6 instantiated at a document: after running the forward-reference
pass twice, no card's forward-reference target list holds a duplicate. -/
def c6ClaimAt (d : Document) : Prop :=
  ∀ a ∈ (addVibeLinks (addVibeLinks d)).archives, ∀ c ∈ a.cards, (fwdTargets c).Nodup

/-- Claim C5 instantiated at `exDoc5` (one origin card, "Greeting", with one
annotation): the linker returns a document whose annotation archive holds
exactly one synthesized card, each synthesized card carrying a `←` label
targeting `#Greeting`. -/
def c5ClaimAtEx : Prop :=
  ∃ d' va, vibeProcess exDoc5 = Except.ok d' ∧ d'.vibe_archive = some va ∧
    va.cards.length = 1 ∧
    ∀ c ∈ va.cards, ∃ lb ∈ c.labels,
      lb.symbol = s2l "←" ∧ lb.content = ['#' :: s2l "Greeting"]

/-- The region update of `_process_code_block_end` for a closed code block
(`lang` the language, `cc` the accumulated body lines): the content gets
`"\n\n```lang\n" + body + "\n```"` appended (note the doubled newline), while
`lines` gets the fence line, the body lines and the closing fence. -/
def regionAppendCodeBlock (r : Region) (lang : List Char) (cc : List (List Char)) : Region :=
  if cc = [] then r
  else
    { r with
      content :=
        if r.content = [] then
          ('`' :: '`' :: '`' :: lang) ++ '\n' :: (joinNl cc ++ '\n' :: ['`', '`', '`'])
        else
          r.content ++ '\n' :: '\n' :: (('`' :: '`' :: '`' :: lang) ++
            '\n' :: (joinNl cc ++ '\n' :: ['`', '`', '`'])),
      lines := (r.lines ++ [('`' :: '`' :: '`' :: lang)]) ++ cc ++ [['`', '`', '`']] }

/-! ## Supporting lemmas -/

theorem length_dropWhile_le (p : Char → Bool) (l : List Char) :
    (l.dropWhile p).length ≤ l.length := by
  induction l with
  | nil => simp
  | cons c cs ih =>
    by_cases h : p c
    · rw [List.dropWhile_cons, if_pos h]
      exact ih.trans (Nat.le_succ _)
    · rw [List.dropWhile_cons, if_neg h]

theorem strip_length_le (l : List Char) : (strip l).length ≤ l.length := by
  have h1 : (stripL l).length ≤ l.length := length_dropWhile_le isWs l
  have h2 : (stripR (stripL l)).length ≤ (stripL l).length := by
    unfold stripR
    simpa using length_dropWhile_le isWs (stripL l).reverse
  exact le_trans h2 h1

theorem vibeAt_rest_lt (l co no rest : List Char)
    (h : vibeAt l = some (co, no, rest)) : rest.length < l.length := by
  unfold vibeAt at h
  split at h
  · rename_i r
    dsimp only at h
    split at h
    · exact absurd h (by simp)
    · split at h
      · rename_i heq
        split at h
        · rename_i rest' heq2
          simp only [Option.some.injEq, Prod.mk.injEq] at h
          obtain ⟨-, -, h3⟩ := h
          subst h3
          rename_i r3 _
          have hr3 := length_dropWhile_le vibeContentChar r
          rw [heq] at hr3
          have hrest := length_dropWhile_le (fun ch => decide (ch ≠ ']')) r3
          rw [heq2] at hrest
          simp only [List.length_cons] at hr3 hrest ⊢
          omega
        · exact absurd h (by simp)
      · exact absurd h (by simp)
  · exact absurd h (by simp)

theorem findVibe_rest_lt : ∀ l pre co no rest : List Char,
    findVibe l = some (pre, co, no, rest) → rest.length < l.length := by
  intro l
  induction l with
  | nil => intro pre co no rest h; simp [findVibe] at h
  | cons c cs ih =>
    intro pre co no rest h
    unfold findVibe at h
    split at h
    · rename_i co' no' rest' heq
      simp only [Option.some.injEq, Prod.mk.injEq] at h
      obtain ⟨-, -, -, h4⟩ := h
      subst h4
      exact vibeAt_rest_lt _ _ _ _ heq
    · split at h
      · rename_i p' co' no' rest' heq2
        simp only [Option.some.injEq, Prod.mk.injEq] at h
        obtain ⟨-, -, -, h4⟩ := h
        subst h4
        exact Nat.lt_succ_of_lt (ih _ _ _ _ heq2)
      · exact absurd h (by simp)

theorem starSplit_rest_lt : ∀ l p r : List Char,
    starSplit l = some (p, r) → r.length < l.length := by
  intro l
  induction l with
  | nil => intro p r h; simp [starSplit] at h
  | cons c cs ih =>
    intro p r h
    unfold starSplit at h
    split at h
    · rename_i r0 heq1
      injection heq1 with hc hcs
      subst hcs
      simp only [Option.some.injEq, Prod.mk.injEq] at h
      obtain ⟨-, h2⟩ := h
      subst h2
      simp only [List.length_cons]
      omega
    · rename_i cstar c2 hne heq1
      injection heq1 with hc hcs
      subst hcs
      split at h
      · rename_i p' r' heq2
        simp only [Option.some.injEq, Prod.mk.injEq] at h
        obtain ⟨-, h2⟩ := h
        subst h2
        exact Nat.lt_succ_of_lt (ih _ _ heq2)
      · exact absurd h (by simp)
    · exact absurd h (by simp)

theorem boldAt_rest_lt (l co rest : List Char)
    (h : boldAt l = some (co, rest)) : rest.length < l.length := by
  unfold boldAt at h
  split at h
  · rename_i r
    have := starSplit_rest_lt _ _ _ h
    simp only [List.length_cons] at *
    omega
  · exact absurd h (by simp)

theorem findBold_rest_lt : ∀ l pre co rest : List Char,
    findBold l = some (pre, co, rest) → rest.length < l.length := by
  intro l
  induction l with
  | nil => intro pre co rest h; simp [findBold] at h
  | cons c cs ih =>
    intro pre co rest h
    unfold findBold at h
    split at h
    · rename_i co' rest' heq
      simp only [Option.some.injEq, Prod.mk.injEq] at h
      obtain ⟨-, -, h3⟩ := h
      subst h3
      exact boldAt_rest_lt _ _ _ heq
    · split at h
      · rename_i p' co' rest' heq2
        simp only [Option.some.injEq, Prod.mk.injEq] at h
        obtain ⟨-, -, h3⟩ := h
        subst h3
        exact Nat.lt_succ_of_lt (ih _ _ _ heq2)
      · exact absurd h (by simp)

theorem scanLoop_isSome (n : Nat) : ∀ fuel r, r.length < fuel → (scanLoop n fuel r).isSome := by
  intro fuel
  induction fuel with
  | zero => intro r h; exact absurd h (Nat.not_lt_zero _)
  | succ f ih =>
    intro r h
    match r with
    | [] => simp [scanLoop]
    | c :: cs =>
      rcases hv : findVibe (c :: cs) with - | ⟨pre, co, no, rest⟩
      · rcases he : findExp (c :: cs) with - | ⟨pre, u⟩
        · rcases hb : findBold (c :: cs) with - | ⟨pre, co, rest⟩
          · simp [scanLoop, hv, he, hb]
          · have h1 : (strip rest).length < f := by
              have := findBold_rest_lt _ _ _ _ hb
              have := strip_length_le rest
              simp only [List.length_cons] at *
              omega
            have := ih (strip rest) h1
            simp only [scanLoop, hv, he, hb]
            rcases hs : scanLoop n f (strip rest) with - | ts
            · rw [hs] at this; exact absurd this (by simp)
            · simp
        · have : (scanLoop n f []).isSome := by
            match f with
            | 0 => simp [scanLoop]
            | f' + 1 => simp [scanLoop]
          simp only [scanLoop, hv, he]
          rcases hs : scanLoop n f [] with - | ts
          · rw [hs] at this; exact absurd this (by simp)
          · simp
      · have h1 : (strip rest).length < f := by
          have := findVibe_rest_lt _ _ _ _ _ hv
          have := strip_length_le rest
          simp only [List.length_cons] at *
          omega
        have := ih (strip rest) h1
        simp only [scanLoop, hv]
        rcases hs : scanLoop n f (strip rest) with - | ts
        · rw [hs] at this; exact absurd this (by simp)
        · simp

theorem preTok_line (n : Nat) (p : List Char) : ∀ t ∈ preTok n p, t.line = n := by
  intro t ht
  unfold preTok at ht
  split at ht
  · simp at ht
  · simp only [List.mem_singleton] at ht
    subst ht
    rfl

theorem scanLoop_line (n : Nat) : ∀ fuel r ts, scanLoop n fuel r = some ts →
    ∀ t ∈ ts, t.line = n := by
  intro fuel
  induction fuel with
  | zero =>
    intro r ts h t ht
    match r with
    | [] =>
      simp only [scanLoop, Option.some.injEq] at h
      subst h
      simp at ht
    | c :: cs => simp [scanLoop] at h
  | succ f ih =>
    intro r ts h t ht
    match r with
    | [] =>
      simp only [scanLoop, Option.some.injEq] at h
      subst h
      simp at ht
    | c :: cs =>
      rcases hv : findVibe (c :: cs) with - | ⟨pre, co, no, rest⟩
      · rcases he : findExp (c :: cs) with - | ⟨pre, u⟩
        · rcases hb : findBold (c :: cs) with - | ⟨pre, co, rest⟩
          · simp only [scanLoop, hv, he, hb, Option.some.injEq] at h
            subst h
            simp only [List.mem_singleton] at ht
            subst ht
            rfl
          · simp only [scanLoop, hv, he, hb] at h
            obtain ⟨ts', hts', rfl⟩ := Option.map_eq_some'.mp h
            rcases List.mem_append.mp ht with hpre | hrest
            · exact preTok_line n pre t hpre
            · rcases List.mem_cons.mp hrest with rfl | hts
              · rfl
              · exact ih _ _ hts' t hts
        · simp only [scanLoop, hv, he] at h
          obtain ⟨ts', hts', rfl⟩ := Option.map_eq_some'.mp h
          obtain rfl : ([] : List Tok) = ts' := by
            match f with
            | 0 => simpa [scanLoop] using hts'
            | f' + 1 => simpa [scanLoop] using hts'
          rcases List.mem_append.mp ht with hpre | hrest
          · exact preTok_line n pre t hpre
          · rcases List.mem_cons.mp hrest with rfl | hts
            · rfl
            · simp at hts
      · simp only [scanLoop, hv] at h
        obtain ⟨ts', hts', rfl⟩ := Option.map_eq_some'.mp h
        rcases List.mem_append.mp ht with hpre | hrest
        · exact preTok_line n pre t hpre
        · rcases List.mem_cons.mp hrest with rfl | hts
          · rfl
          · exact ih _ _ hts' t hts

theorem scanTokens_line (n : Nat) (content : List Char) :
    ∀ t ∈ scanTokens n content, t.line = n := by
  intro t ht
  unfold scanTokens at ht
  rcases h : scanLoop n ((strip content).length + 1) (strip content) with - | ts
  · rw [h] at ht
    simp at ht
  · rw [h] at ht
    exact scanLoop_line n _ _ _ h t ht

theorem inlineElems_line (n : Nat) (l : List Char) :
    ∀ t ∈ inlineElems n l, t.line = n := by
  intro t ht
  unfold inlineElems at ht
  split at ht
  · simp only [List.mem_singleton] at ht
    subst ht
    rfl
  · split at ht
    · rcases List.mem_cons.mp ht with rfl | hts
      · rfl
      · exact scanTokens_line n _ t hts
    · split at ht
      · rcases List.mem_cons.mp ht with rfl | hts
        · rfl
        · exact scanTokens_line n _ t hts
      · exact scanTokens_line n _ t ht

theorem lexLine_line (n : Nat) (l : List Char) :
    ∀ t ∈ (lexLine n l).1, t.line = n := by
  intro t ht
  unfold lexLine at ht
  split at ht
  · simp only [List.mem_singleton] at ht
    subst ht
    rfl
  · split at ht
    · simp only [List.mem_singleton] at ht
      subst ht
      rfl
    · split at ht
      · simp only [List.mem_singleton] at ht
        subst ht
        rfl
      · split at ht
        · simp only [List.mem_singleton] at ht
          subst ht
          rfl
        · split at ht
          · simp only [List.mem_singleton] at ht
            subst ht
            rfl
          · split at ht
            · simp only [List.mem_singleton] at ht
              subst ht
              rfl
            · exact inlineElems_line n l t ht

theorem pairwise_le_of_const (n : Nat) (ts : List Tok) (h : ∀ t ∈ ts, t.line = n) :
    ts.Pairwise (fun a b => a.line ≤ b.line) := by
  refine List.pairwise_of_forall_mem_list ?_
  intro a ha b hb
  rw [h a ha, h b hb]

theorem lexLoop_mono : ∀ (ls : List (List Char)) (inCode : Bool) (cc : List (List Char)) (n : Nat),
    (inCode = true → cc.length + 1 ≤ n) →
    (∀ t ∈ lexLoop inCode cc n ls, n - (if inCode then cc.length else 0) ≤ t.line) ∧
      (lexLoop inCode cc n ls).Pairwise (fun a b => a.line ≤ b.line) := by
  intro ls
  induction ls with
  | nil =>
    intro inCode cc n hn
    constructor
    · intro t ht
      simp [lexLoop] at ht
    · simp [lexLoop]
  | cons l ls ih =>
    intro inCode cc n hn
    match inCode with
    | true =>
      have hcc := hn rfl
      by_cases hend : lexCodeEnd l
      · obtain ⟨ihlow, ihpw⟩ := ih false [] (n + 1) (by simp)
        have hrec : ∀ t ∈ lexLoop false [] (n + 1) ls, n + 1 ≤ t.line := by
          intro t ht
          have := ihlow t ht
          simpa using this
        by_cases hcce : cc = []
        · subst hcce
          constructor
          · intro t ht
            simp only [lexLoop, hend, if_pos, if_true] at ht
            simp only [if_pos rfl, List.nil_append] at ht ⊢
            rcases List.mem_cons.mp ht with rfl | hts
            · simp
            · have := hrec t hts
              simp only [List.length_nil, Nat.sub_zero]
              omega
          · simp only [lexLoop, hend, if_true]
            simp only [if_pos rfl, List.nil_append]
            refine List.pairwise_cons.mpr ⟨?_, ihpw⟩
            intro t ht
            have := hrec t ht
            simp only
            omega
        · constructor
          · intro t ht
            simp only [lexLoop, hend, if_true, if_neg hcce, List.cons_append,
              List.nil_append] at ht
            rcases List.mem_cons.mp ht with rfl | hts
            · simp
            · rcases List.mem_cons.mp hts with rfl | hts2
              · simp only
                omega
              · have := hrec t hts2
                simp only
                omega
          · simp only [lexLoop, hend, if_true, if_neg hcce, List.cons_append, List.nil_append]
            refine List.pairwise_cons.mpr ⟨?_, ?_⟩
            · intro t ht
              rcases List.mem_cons.mp ht with rfl | hts
              · simp only
                omega
              · have := hrec t hts
                simp only
                omega
            · refine List.pairwise_cons.mpr ⟨?_, ihpw⟩
              intro t ht
              have := hrec t ht
              simp only
              omega
      · obtain ⟨ihlow, ihpw⟩ := ih true (cc ++ [l]) (n + 1) (by
          intro _
          simp only [List.length_append, List.length_singleton]
          omega)
        constructor
        · intro t ht
          simp only [lexLoop, hend, if_true, if_false] at ht
          have := ihlow t ht
          simp at this ⊢
          omega
        · simp only [lexLoop, hend, if_true, if_false]
          exact ihpw
    | false =>
      obtain ⟨ihlow, ihpw⟩ := ih (lexLine n l).2 [] (n + 1) (by
        intro _
        simp only [List.length_nil]
        omega)
      have hrec : ∀ t ∈ lexLoop (lexLine n l).2 [] (n + 1) ls, n + 1 ≤ t.line := by
        intro t ht
        have := ihlow t ht
        rcases h2 : (lexLine n l).2 with - | -
        · rw [h2] at this
          simpa using this
        · rw [h2] at this
          simpa using this
      constructor
      · intro t ht
        simp only [lexLoop, if_false] at ht
        rcases List.mem_append.mp ht with hts | hts
        · have := lexLine_line n l t hts
          simp only [if_neg Bool.false_ne_true]
          omega
        · have := hrec t hts
          simp only [if_neg Bool.false_ne_true]
          omega
      · simp only [lexLoop, if_false]
        refine List.pairwise_append.mpr ⟨?_, ihpw, ?_⟩
        · exact pairwise_le_of_const n _ (lexLine_line n l)
        · intro x hx y hy
          have hx1 := lexLine_line n l x hx
          have hy1 := hrec y hy
          omega

theorem lexLoop_inCode_no_end : ∀ (bs cc : List (List Char)) (n : Nat),
    (∀ b ∈ bs, lexCodeEnd b = false) → lexLoop true cc n bs = [] := by
  intro bs
  induction bs with
  | nil => intro cc n h; rfl
  | cons b bs ih =>
    intro cc n h
    have hb : lexCodeEnd b = false := h b (by simp)
    have hstep : lexLoop true cc n (b :: bs) = lexLoop true (cc ++ [b]) (n + 1) bs := by
      simp [lexLoop, hb]
    rw [hstep]
    exact ih (cc ++ [b]) (n + 1) (fun x hx => h x (by simp [hx]))

theorem countKind_append (k : TokKind) (a b : List Tok) :
    countKind k (a ++ b) = countKind k a + countKind k b := by
  simp [countKind, List.filter_append]

theorem countKind_cons (k : TokKind) (x : Tok) (ts : List Tok) :
    countKind k (x :: ts) = (if x.kind = k then 1 else 0) + countKind k ts := by
  by_cases h : x.kind = k
  · simp [countKind, List.filter_cons, h]
    omega
  · simp [countKind, List.filter_cons, h]

theorem countKind_preTok_exp (n : Nat) (p : List Char) :
    countKind TokKind.inlineExp (preTok n p) = 0 := by
  unfold preTok
  split
  · rfl
  · simp [countKind, List.filter_cons]

theorem scanLoop_aside_le_one (n : Nat) : ∀ fuel r,
    countKind TokKind.inlineExp ((scanLoop n fuel r).getD []) ≤ 1 := by
  intro fuel
  induction fuel with
  | zero =>
    intro r
    match r with
    | [] => simp [scanLoop, countKind]
    | c :: cs => simp [scanLoop, countKind]
  | succ f ih =>
    intro r
    match r with
    | [] => simp [scanLoop, countKind]
    | c :: cs =>
      rcases hv : findVibe (c :: cs) with - | ⟨pre, co, no, rest⟩
      · rcases he : findExp (c :: cs) with - | ⟨pre, u⟩
        · rcases hb : findBold (c :: cs) with - | ⟨pre, co, rest⟩
          · simp [scanLoop, hv, he, hb, countKind, List.filter_cons]
          · simp only [scanLoop, hv, he, hb]
            rcases hs : scanLoop n f (strip rest) with - | ts
            · simp [countKind]
            · have hrec := ih (strip rest)
              rw [hs] at hrec
              simp only [Option.getD_some] at hrec
              simp only [Option.map_some', Option.getD_some]
              rw [countKind_append, countKind_cons, countKind_preTok_exp]
              simpa using hrec
        · simp only [scanLoop, hv, he]
          simp only [Option.map_some', Option.getD_some]
          rw [countKind_append, countKind_cons, countKind_preTok_exp]
          simp [countKind]
      · simp only [scanLoop, hv]
        rcases hs : scanLoop n f (strip rest) with - | ts
        · simp [countKind]
        · have hrec := ih (strip rest)
          rw [hs] at hrec
          simp only [Option.getD_some] at hrec
          simp only [Option.map_some', Option.getD_some]
          rw [countKind_append, countKind_cons, countKind_preTok_exp]
          simpa using hrec

theorem parseLines_cases : ∀ (ls : List (List Char)) (st : ParseSt),
    (∃ st', parseLines st ls = Except.ok st') ∨
      parseLines st ls = Except.error PyErr.typeErr := by
  intro ls
  induction ls with
  | nil => intro st; exact Or.inl ⟨st, rfl⟩
  | cons l ls ih =>
    intro st
    rcases h : parseLine st l with e | st'
    · cases e
      right
      simp [parseLines, h]
    · rcases ih st' with ⟨st'', h2⟩ | h2
      · left
        exact ⟨st'', by simp [parseLines, h, h2]⟩
      · right
        simp [parseLines, h, h2]

theorem remupParse_always_err (src : List Char) :
    remupParse src = Except.error PyErr.typeErr := by
  unfold remupParse
  rcases parseLines_cases (splitNl src) ⟨false⟩ with ⟨st', h⟩ | h
  · rw [h]
  · rw [h]

theorem extractVibesFromLines_eq : ∀ ls : List (List Char),
    extractVibesFromLines ls =
      if ls.any parHasVibe then Except.error PyErr.typeErr else Except.ok [] := by
  intro ls
  induction ls with
  | nil => rfl
  | cons l ls ih =>
    by_cases h : parHasVibe l
    · simp [extractVibesFromLines, extractVibesFromText, h]
    · by_cases h2 : ls.any parHasVibe
      · simp [extractVibesFromLines, extractVibesFromText, h, ih, h2]
      · simp [extractVibesFromLines, extractVibesFromText, h, ih, h2]

theorem processRegion_eq (r : Region) :
    processRegion r =
      if regionHasVibe r then Except.error PyErr.typeErr
      else Except.ok ({ r with vibe_cards := [] }, []) := by
  unfold processRegion regionHasVibe extractVibesFromText
  rw [extractVibesFromLines_eq]
  by_cases h1 : parHasVibe r.content
  · simp [h1]
  · by_cases h2 : r.lines.any parHasVibe
    · simp [h1, h2]
    · simp [h1, h2]

theorem processRegions_eq : ∀ rs : List Region,
    processRegions rs =
      if rs.any regionHasVibe then Except.error PyErr.typeErr
      else Except.ok (rs.map (fun r => { r with vibe_cards := [] }), []) := by
  intro rs
  induction rs with
  | nil => rfl
  | cons r rs ih =>
    by_cases h : regionHasVibe r
    · simp [processRegions, processRegion_eq, h]
    · by_cases h2 : rs.any regionHasVibe
      · simp [processRegions, processRegion_eq, h, ih, h2]
      · simp [processRegions, processRegion_eq, h, ih, h2]

theorem processCard_eq (c : MainCard) :
    processCard c =
      if c.regions.any regionHasVibe then Except.error PyErr.typeErr
      else Except.ok { c with vibe_cards := [],
                              regions := c.regions.map (fun r => { r with vibe_cards := [] }) } := by
  unfold processCard
  rw [processRegions_eq]
  by_cases h : c.regions.any regionHasVibe
  · simp [h]
  · simp [h]

theorem processCards_eq : ∀ cs : List MainCard,
    processCards cs =
      if cs.any (fun c => c.regions.any regionHasVibe) then Except.error PyErr.typeErr
      else Except.ok (cs.map (fun c =>
        { c with vibe_cards := [],
                 regions := c.regions.map (fun r => { r with vibe_cards := [] }) })) := by
  intro cs
  induction cs with
  | nil => rfl
  | cons c cs ih =>
    by_cases h : c.regions.any regionHasVibe
    · simp [processCards, processCard_eq, h]
    · by_cases h2 : cs.any (fun c => c.regions.any regionHasVibe)
      · simp [processCards, processCard_eq, h, ih, h2]
      · simp [processCards, processCard_eq, h, ih, h2]

theorem processArchives_eq : ∀ as_ : List Archive,
    processArchives as_ =
      if as_.any (fun a => a.cards.any (fun c => c.regions.any regionHasVibe)) then
        Except.error PyErr.typeErr
      else Except.ok (as_.map (fun a =>
        { a with cards := a.cards.map (fun c =>
            { c with vibe_cards := [],
                     regions := c.regions.map (fun r => { r with vibe_cards := [] }) }) })) := by
  intro as_
  induction as_ with
  | nil => rfl
  | cons a as_ ih =>
    by_cases h : a.cards.any (fun c => c.regions.any regionHasVibe)
    · simp [processArchives, processCards_eq, h]
    · by_cases h2 : as_.any (fun a => a.cards.any (fun c => c.regions.any regionHasVibe))
      · simp [processArchives, processCards_eq, h, ih, h2]
      · simp [processArchives, processCards_eq, h, ih, h2]

theorem vibeProcess_eq (d : Document) :
    vibeProcess d =
      if d.archives.isEmpty then Except.ok d
      else if docHasVibe d then Except.error PyErr.typeErr
      else Except.ok (addVibeLinks (clearVibes d)) := by
  unfold vibeProcess docHasVibe clearVibes
  rw [processArchives_eq]
  by_cases h0 : d.archives.isEmpty
  · simp [h0]
  · by_cases h1 : d.archives.any (fun a => a.cards.any (fun c => c.regions.any regionHasVibe))
    · simp [h0, h1]
    · simp [h0, h1]

theorem addVibeLinks_twice_eq (d : Document) :
    addVibeLinks (addVibeLinks d) =
      ⟨d.title,
       d.archives.map (fun a =>
         { a with cards := a.cards.map (fun c =>
             { c with labels := (c.labels ++ refsFor (vibeThemes d) c.regions)
                                  ++ refsFor (vibeThemes d) c.regions }) }),
       d.vibe_archive⟩ := by
  rcases d with ⟨title, archs, va⟩
  unfold addVibeLinks
  have hth : vibeThemes (⟨title, archs.map (fun a =>
        { a with cards := a.cards.map (linkCard (vibeThemes ⟨title, archs, va⟩)) }),
        va⟩ : Document) = vibeThemes ⟨title, archs, va⟩ := rfl
  rw [hth]
  simp only [List.map_map]
  congr 1
  apply List.map_congr_left
  intro a _
  rcases a with ⟨nm, cards, descr⟩
  simp only [Function.comp_apply, List.map_map]
  congr 1

/-! ## Claim theorems -/

/-- C1: the claim says `RemUpParser.parse` returns a `Document` without
raising for inputs with missing terminators or out-of-place labels.  In the
code, `parse` raises `TypeError` on every input: the first CardStart line
triggers `MainCard(..., metadata=...)` (no such field), and even card-free
inputs reach `Document(archives=...)`, which omits the required `title`
field.  This theorem evaluates the embedded parser: it returns
`TypeError` for every source text, in particular for the claim's
unterminated-card scenario. -/
theorem c1_parse_always_raises (src : List Char) :
    remupParse src = Except.error PyErr.typeErr :=
  remupParse_always_err src

/-- C2: the claim says an empty card theme is the only hard parse error and
is reported as a typed failure with the offending line number.  In the code
the whitespace-only theme scenario from the spec aborts with a plain
`TypeError` raised by the `MainCard` constructor before any theme check —
the same error every CardStart line produces — and the empty-theme
`ValueError` in `RemUpCompiler._validate_ast_structure` carries no line
number and is unreachable. -/
theorem c2_empty_theme_scenario_typeerror :
    remupParse (s2l "<+   \n/+>") = Except.error PyErr.typeErr := by
  rfl

/-- C3: the claim states the round-trip invariant
`region.content == '\n'.join(region.lines)` for all Regions of parsed
Documents.  In the code no Region ever exists: `---name` lines are
dispatched to the missing method `_process_region` and dropped, and `parse`
raises `TypeError` on this (and every) input before producing a
Document. -/
theorem c3_region_source_raises :
    remupParse (s2l "<+T\n---Body\nhello\n/+>") = Except.error PyErr.typeErr := by
  rfl

/-- The dormant region-update code of `_process_code_block_end` violates
the round-trip invariant of C3 whenever a fenced block follows existing
content: the content side gains a blank line (`"\n\n```py"`) that the lines
side does not. -/
theorem region_codeblock_breaks_roundtrip :
    (regionAppendCodeBlock (regionAppendLine ⟨s2l "Body", [], [], []⟩ (s2l "text"))
        (s2l "py") [s2l "code"]).content ≠
      joinNl (regionAppendCodeBlock (regionAppendLine ⟨s2l "Body", [], [], []⟩ (s2l "text"))
        (s2l "py") [s2l "code"]).lines := by
  decide

/-- C4: the claim says every `VibeCard` carries an integer id, strictly
increasing and unique in discovery order.  In the code no `VibeCard` is ever
constructed: every construction site passes a `line_number=` keyword that is
not a field and omits the required `id` field, so the first annotation match
raises `TypeError`; no id counter exists anywhere.  This theorem evaluates
the vibe processor at a document with one annotation. -/
theorem c4_vibecard_construction_raises :
    vibeProcess exDoc4 = Except.error PyErr.typeErr := by
  rfl

/-- C5 counterexample: at a document with one origin card "Greeting" holding
one annotation, the linker does not produce an annotation archive with one
synthesized back-linked card — it raises `TypeError` at the `VibeCard`
construction. -/
theorem c5_counterexample :
    vibeProcess exDoc5 = Except.error PyErr.typeErr ∧ ¬ c5ClaimAtEx := by
  have h : vibeProcess exDoc5 = Except.error PyErr.typeErr := by rfl
  refine ⟨h, ?_⟩
  rintro ⟨d', va, hok, -⟩
  rw [h] at hok
  exact absurd hok (by simp)

/-- C5 (amended): on any document with at least one annotation span in some
region (content or line), the Annotation Linker raises `TypeError` (the
`VibeCard` constructor has no `line_number` parameter and its `id` is not
supplied), so no annotation archive is ever synthesized; on a document with
no annotation span it returns the document with all vibe-card lists cleared
and the forward-reference label pass applied, leaving `vibe_archive`
untouched; a document with no archives is returned unchanged. -/
theorem c5_linker_behavior (d : Document) :
    vibeProcess d =
      if d.archives.isEmpty then Except.ok d
      else if docHasVibe d then Except.error PyErr.typeErr
      else Except.ok (addVibeLinks (clearVibes d)) :=
  vibeProcess_eq d

/-- C6 counterexample: on a document whose vibe archive knows the theme `x`
and whose single card has a region mentioning `x`, running the
forward-reference pass twice attaches the target `#x` twice to that card's
label list. -/
theorem c6_counterexample : ¬ c6ClaimAt exDoc6 := by
  unfold c6ClaimAt
  decide

/-- C6 (amended): the forward-reference pass deduplicates nothing — it
appends one `→` label per region that mentions a known annotation theme,
without consulting the existing label list, so running it twice appends the
same reference labels twice. -/
theorem c6_forward_pass_not_idempotent (d : Document) :
    addVibeLinks (addVibeLinks d) =
      ⟨d.title,
       d.archives.map (fun a =>
         { a with cards := a.cards.map (fun c =>
             { c with labels := (c.labels ++ refsFor (vibeThemes d) c.regions)
                                  ++ refsFor (vibeThemes d) c.regions }) }),
       d.vibe_archive⟩ :=
  addVibeLinks_twice_eq d

/-- C7 counterexample: on the line `a `x`[n] b` the inline scanner emits two
Text tokens ("a" and "b"), not one, and neither carries the emphasised
placeholder `__x__` — the annotation span is emitted as its own token and
dropped from the text. -/
theorem c7_counterexample :
    scanTokens 1 (s2l "a `x`[n] b") =
      [⟨TokKind.text, s2l "a", 1⟩, ⟨TokKind.vibeCard, s2l "x[n]", 1⟩,
       ⟨TokKind.text, s2l "b", 1⟩] ∧
      countKind TokKind.text (scanTokens 1 (s2l "a `x`[n] b")) ≠ 1 := by
  decide

/-- C7 (amended): the inline scanner emits at most one InlineAside token per
scanned line (after an aside match the scan always consumes the rest of the
line), while the number of Text tokens can be zero or several — one per
non-empty stripped plain segment. -/
theorem c7_at_most_one_aside (n : Nat) (content : List Char) :
    countKind TokKind.inlineExp (scanTokens n content) ≤ 1 := by
  unfold scanTokens
  exact scanLoop_aside_le_one n _ _

/-- C8 counterexample: on an input whose final code block is never closed,
`tokenize` emits only the CodeBlockStart token — the accumulated body
"code" is silently discarded, no CodeBlockContent token appears. -/
theorem c8_counterexample :
    tokenize (s2l "```py\ncode") = [⟨TokKind.codeBlockStart, s2l "py", 1⟩] ∧
      countKind TokKind.codeBlockContent (tokenize (s2l "```py\ncode")) = 0 := by
  decide

/-- C8 (amended): an unterminated code block's accumulated lines are
dropped: for any body lines none of which is a closing fence, the token
stream of the fence line followed by the body is just the CodeBlockStart
token — no CodeBlockContent and no CodeBlockEnd are emitted at end of
input. -/
theorem c8_unterminated_block_dropped (bs : List (List Char))
    (h : ∀ b ∈ bs, lexCodeEnd b = false) :
    lexLoop false [] 1 (s2l "```py" :: bs) = [⟨TokKind.codeBlockStart, s2l "py", 1⟩] := by
  have h1 : lexLoop false [] 1 (s2l "```py" :: bs) =
      (lexLine 1 (s2l "```py")).1 ++ lexLoop (lexLine 1 (s2l "```py")).2 [] 2 bs := by
    simp [lexLoop]
  rw [h1]
  have h2 : lexLine 1 (s2l "```py") = ([⟨TokKind.codeBlockStart, s2l "py", 1⟩], true) := by
    decide
  rw [h2, lexLoop_inCode_no_end bs [] 2 h]
  rfl

/-- Witness for C8's amended theorem at the body `["code"]`. -/
theorem c8_unterminated_block_dropped_witness :
    lexLoop false [] 1 (s2l "```py" :: [s2l "code"]) =
      [⟨TokKind.codeBlockStart, s2l "py", 1⟩] :=
  c8_unterminated_block_dropped [s2l "code"] (by decide)

/-- C9: across the whole token stream of any input, line numbers are 1-based
and monotonically non-decreasing from each token to the next — including the
back-dated line number of CodeBlockContent tokens. -/
theorem c9_line_numbers_monotone (src : List Char) :
    (∀ t ∈ tokenize src, 1 ≤ t.line) ∧
      (tokenize src).Pairwise (fun a b => a.line ≤ b.line) := by
  obtain ⟨hlow, hpw⟩ := lexLoop_mono (splitNl src) false [] 1 (by intro h; cases h)
  constructor
  · intro t ht
    have := hlow t ht
    simpa using this
  · exact hpw

/-- C10: the inline scanning loop terminates for every line — the fuel
`length + 1` always suffices, because every loop iteration consumes a
non-empty match and strictly shrinks the remaining suffix; hence the
tokenizer is a total function of its input. -/
theorem c10_inline_scan_terminates (n : Nat) (r : List Char) :
    (scanLoop n (r.length + 1) r).isSome :=
  scanLoop_isSome n (r.length + 1) r (Nat.lt_succ_self _)
